import Mathlib

/-!
Shallow embedding of the mta-go feed-merge and store core
(src/internal/store/store.go, src/internal/feed/feed.go,
src/internal/models/models.go), with theorems settling the claims about it.

Modelling conventions:
* Go `time.Time` instants are modelled as `Int` nanoseconds since the epoch;
  `time.Time.Unix()` is floor division by 10^9 (Go stores `sec`/`nsec` with
  `0 ≤ nsec < 10^9`, so `Unix()` is the floor of the nanosecond count).
* Go maps are modelled as association lists in iteration order.  Go map
  iteration order is unspecified, so statements about code that ranges over a
  map quantify over the entry order where the order can matter.
* Go float64 coordinates are inert data for the claims treated here; they are
  carried as exact rationals.
* Fallible Go functions returning `error` are modelled with `Except String`
  or an `Option String` error component.
-/

/-- models.Location (internal/models/models.go). Coordinates are carried as
exact rationals; no claim settled here computes with them. -/
structure Location where
  lat : ℚ
  lon : ℚ
deriving DecidableEq, Repr

/-- models.Train: one predicted arrival (route, instant).  `time` is the
instant in nanoseconds since the epoch. -/
structure Train where
  route : String
  time : Int
deriving DecidableEq, Repr

/-- models.TrainsByDirection. -/
structure TrainsByDirection where
  north : List Train
  south : List Train
deriving DecidableEq, Repr

/-- models.Station. -/
structure Station where
  id : String
  name : String
  location : Location
  routes : List String
  trains : TrainsByDirection
  stops : List (String × Location)
  lastUpdate : Int
deriving DecidableEq, Repr

/-- models.TimePeriod: either bound may be absent (nil pointer). -/
structure TimePeriod where
  startT : Option Int
  endT : Option Int
deriving DecidableEq, Repr

/-- models.Alert. -/
structure Alert where
  id : String
  header : String
  description : String
  routes : List String
  stations : List String
  activePeriods : List TimePeriod
deriving DecidableEq, Repr

/-- store.Store state (internal/store/store.go).  The two Go maps are kept as
association lists in iteration order. -/
structure Store where
  stations : List (String × Station)
  stationsByRoute : List (String × List Station)
  alerts : List Alert
  routes : List String
  lastUpdate : Int
deriving DecidableEq, Repr

/-- store.NewStore. -/
def NewStore : Store :=
  { stations := [], stationsByRoute := [], alerts := [], routes := [], lastUpdate := 0 }

/-- Lookup in the `stations` map (`s.stations[id]`). -/
def lookupStation (m : List (String × Station)) (id : String) : Option Station :=
  (m.find? (fun e => e.1 == id)).map (fun e => e.2)

/-- Lookup in the `stationsByRoute` map. -/
def lookupBucket (idx : List (String × List Station)) (r : String) : Option (List Station) :=
  (idx.find? (fun e => e.1 == r)).map (fun e => e.2)

/-- One step of `s.stationsByRoute[route] = append(s.stationsByRoute[route], station)`:
append `st` to the bucket of key `r`, creating the bucket if absent. -/
def appendToBucket (idx : List (String × List Station)) (r : String) (st : Station) :
    List (String × List Station) :=
  match idx with
  | [] => [(r, [st])]
  | (k, l) :: rest =>
    if k == r then (k, l ++ [st]) :: rest else (k, l) :: appendToBucket rest r st

/-- Inner loop of the index rebuild in store.UpdateStations:
`for _, route := range station.Routes { append }`. -/
def addStationRoutes (idx : List (String × List Station)) (st : Station) :
    List (String × List Station) :=
  st.routes.foldl (fun i r => appendToBucket i r st) idx

/-- Outer loop of the index rebuild: `for _, station := range stations`,
over the entries in iteration order. -/
def buildIndex (entries : List (String × Station)) : List (String × List Station) :=
  entries.foldl (fun i e => addStationRoutes i e.2) []

/-- Lexicographic comparison of character lists, the order Go's native string
`<` induces (UTF-8 byte order coincides with code-point order). -/
def charListLe : List Char → List Char → Bool
  | [], _ => true
  | _ :: _, [] => false
  | a :: as, b :: bs => if a < b then true else if b < a then false else charListLe as bs

/-- Go string comparison `a <= b`. -/
def strLe (a b : String) : Bool := charListLe a.data b.data

/-- Station order used by `sort.Slice(..., Name < Name)`: non-strict name
comparison; `List.insertionSort` with it is stable, matching Go's
insertion sort on the small concrete inputs used below. -/
def nameLe (a b : Station) : Prop := strLe a.name b.name = true

instance : DecidableRel nameLe :=
  fun a b => inferInstanceAs (Decidable (strLe a.name b.name = true))

/-- String order used by `sort.Strings` on the route list. -/
def routeLe (a b : String) : Prop := strLe a b = true

instance : DecidableRel routeLe := fun a b => inferInstanceAs (Decidable (strLe a b = true))

/-- Sorting every route's bucket by display name
(`for route := range s.stationsByRoute { sort.Slice ... }`). -/
def sortBuckets (idx : List (String × List Station)) : List (String × List Station) :=
  idx.map (fun e => (e.1, e.2.insertionSort nameLe))

/-- One step of populating `routeSet` (`routeSet[route] = true`), modelled as a
first-occurrence set kept as a list. -/
def insertNewKey (ks : List String) (r : String) : List String :=
  if r ∈ ks then ks else ks ++ [r]

/-- The key set of `routeSet` after both loops of store.UpdateStations. -/
def collectRoutes (entries : List (String × Station)) : List String :=
  entries.foldl (fun ks e => e.2.routes.foldl insertNewKey ks) []

/-- Strict display-name order on stations (used to show the rebuilt bucket
order is forced when display names are distinct). -/
def nameLt (a b : Station) : Prop := strLe a.name b.name = true ∧ a.name ≠ b.name

/-- Append of an optional bucket, describing what one `append`-to-map-entry
pass leaves under a key: `none` stays `none` when nothing is appended. -/
def optAppend (o : Option (List Station)) (l : List Station) : Option (List Station) :=
  if l.isEmpty then o else some (o.getD [] ++ l)

/-- The stations a single station contributes to route `r`'s bucket: one copy
per occurrence of `r` in its route list. -/
def bucketOf (st : Station) (r : String) : List Station :=
  (st.routes.filter (fun x => x == r)).map (fun _ => st)

/-- Concatenated contributions of all entries to route `r`'s bucket, in
iteration order. -/
def bucketsConcat (entries : List (String × Station)) (r : String) : List Station :=
  entries.foldr (fun e acc => bucketOf e.2 r ++ acc) []

/-- store.UpdateStations: install `entries` as the stations map, record the
merge timestamp, rebuild the route index (sorting each bucket by name) and
the sorted route list.  `entries` is the new map in iteration order. -/
def UpdateStations (s : Store) (entries : List (String × Station)) (now : Int) : Store :=
  { s with
    stations := entries
    lastUpdate := now
    stationsByRoute := sortBuckets (buildIndex entries)
    routes := (collectRoutes entries).insertionSort routeLe }

/-- store.UpdateAlerts: replace the alert list wholesale. -/
def UpdateAlerts (s : Store) (alerts : List Alert) : Store :=
  { s with alerts := alerts }

/-- ASCII uppercasing of a string, modelling Go strings.ToUpper on the ASCII
route codes this system handles (Go's mapping agrees with ASCII there). -/
def strToUpper (s : String) : String := ⟨s.data.map Char.toUpper⟩

/-- ASCII lowercasing, modelling Go strings.ToLower likewise. -/
def strToLower (s : String) : String := ⟨s.data.map Char.toLower⟩

/-- store.GetStationsByRoute: uppercase the code, look it up in the route
index; missing key is the NotFound error. -/
def GetStationsByRoute (s : Store) (route : String) : Except String (List Station) :=
  let r := strToUpper route
  match lookupBucket s.stationsByRoute r with
  | none => .error ("route " ++ r ++ " not found")
  | some l => .ok l

/-- store.GetStationsByIDs: collect the stations that exist in request order,
ignore missing IDs, error only when nothing matched. -/
def GetStationsByIDs (s : Store) (ids : List String) : Except String (List Station) :=
  let result := ids.foldl (fun acc id =>
    match lookupStation s.stations id with
    | some st => acc ++ [st]
    | none => acc) []
  if result.isEmpty then .error "no stations found for given IDs" else .ok result

/-- store.GetRoutes (returns a copy of the sorted route list). -/
def GetRoutes (s : Store) : List String := s.routes

/-- store.GetServiceAlerts (returns a copy of the alert list). -/
def GetServiceAlerts (s : Store) : List Alert := s.alerts

/-- Decidable equality for the `Except` results of the store queries. -/
instance {ε α : Type} [DecidableEq ε] [DecidableEq α] : DecidableEq (Except ε α) := by
  intro a b
  cases a <;> cases b
  case error.error e e' => exact decidable_of_iff (e = e') (by constructor <;> (intro h; cases h; rfl))
  case ok.ok v v' => exact decidable_of_iff (v = v') (by constructor <;> (intro h; cases h; rfl))
  all_goals exact isFalse (by intro h; cases h)

/-- ASCII digit test on a character (`routeID[i] >= '0' && routeID[i] <= '9'`
in feed.extractRouteFromID; digits are single-byte, so byte-wise Go code and
this character-wise model agree on all inputs). -/
def isDigitChar (c : Char) : Bool := '0' ≤ c && c ≤ '9'

/-- Length of the run of consecutive digits at the front of the list
(the inner `for j := i; ...` count in feed.extractRouteFromID). -/
def digitRun : List Char → Nat
  | [] => 0
  | c :: cs => if isDigitChar c then digitRun cs + 1 else 0

/-- The fallback scan of feed.extractRouteFromID: find the first position
`i > 0` that starts a run of at least 4 digits. -/
def fallbackCut : List Char → Nat → Option Nat
  | [], _ => none
  | c :: cs, i =>
    if i > 0 && isDigitChar c && decide (4 ≤ digitRun (c :: cs)) then some i
    else fallbackCut cs (i + 1)

/-- feed.extractRouteFromID: strip a trailing 8-digit date suffix if present,
else cut before the first interior run of 4+ digits, else return unchanged. -/
def extractRouteFromID (routeID : String) : String :=
  let l := routeID.data
  if 8 ≤ l.length && (l.drop (l.length - 8)).all isDigitChar then
    ⟨l.take (l.length - 8)⟩
  else
    match fallbackCut l 0 with
    | some i => ⟨l.take i⟩
    | none => routeID

/-- Nanoseconds per second, for converting Go `time` values. -/
def nsPerSec : Int := 1000000000

/-- Go `t.Unix()`: whole seconds since the epoch (floor of the nanosecond
instant). -/
def unixSec (t : Int) : Int := Int.fdiv t nsPerSec

/-- The deduplication key of feed.sortAndLimitTrains:
`fmt.Sprintf("%s_%d", train.Route, train.Time.Unix())`. -/
def trainKey (t : Train) : String := t.route ++ "_" ++ toString (unixSec t.time)

/-- Go map insertion `trainMap[key] = train` (overwrite on existing key). -/
def upsert (m : List (String × Train)) (k : String) (v : Train) : List (String × Train) :=
  match m with
  | [] => [(k, v)]
  | (k', v') :: rest => if k' == k then (k', v) :: rest else (k', v') :: upsert rest k v

/-- The inner `for j := i + 1 ...` sweep of the hand-written sort in
feed.sortAndLimitTrains: walk the tail, swapping whenever the carried element
arrives strictly later (`Time.After`); returns the minimum and the leftover
tail with each displaced carried element left where the swap put it. -/
def selMin (x : Train) : List Train → Train × List Train
  | [] => (x, [])
  | y :: ys =>
    if x.time > y.time then
      let p := selMin y ys
      (p.1, x :: p.2)
    else
      let p := selMin x ys
      (p.1, y :: p.2)

/-- The outer `for i ...` loop of the hand-written sort, with the list length
as structural fuel (the tail returned by `selMin` has the same length as the
one passed in, proved below). -/
def selSortAux : Nat → List Train → List Train
  | 0, _ => []
  | _ + 1, [] => []
  | fuel + 1, x :: xs =>
    let p := selMin x xs
    p.1 :: selSortAux fuel p.2

/-- The complete double-loop sort of feed.sortAndLimitTrains. -/
def selSort (l : List Train) : List Train := selSortAux l.length l

/-- feed.sortAndLimitTrains: deduplicate via the keyed map, collect the values
(in map order, modelled as insertion order), sort by arrival time, keep the
first 10. -/
def sortAndLimitTrains (trains : List Train) : List Train :=
  if trains.isEmpty then trains
  else
    let m := trains.foldl (fun m t => upsert m (trainKey t) t) []
    let uniqueTrains := m.map (fun e => e.2)
    (selSort uniqueTrains).take 10

/-- The per-station cleanup at the end of feed.updateRealTimeData: sort and
limit both direction lists and stamp the update time. -/
def finalizeStation (now : Int) (st : Station) : Station :=
  { st with
    trains :=
      { north := sortAndLimitTrains st.trains.north
        south := sortAndLimitTrains st.trains.south }
    lastUpdate := now }

/-- The `for _, station := range stations` cleanup loop over the working copy. -/
def finalizeAll (now : Int) (entries : List (String × Station)) : List (String × Station) :=
  entries.map (fun e => (e.1, finalizeStation now e.2))

/-- gtfsrt.StopTimeEvent: absolute unix-second timestamp and/or relative delay
in seconds, both optional. -/
structure StopTimeEvent where
  time : Option Int
  delay : Option Int
deriving DecidableEq, Repr

/-- gtfsrt.StopTimeUpdate. -/
structure StopTimeUpdate where
  stopId : Option String
  arrival : Option StopTimeEvent
deriving DecidableEq, Repr

/-- gtfsrt.TripDescriptor. -/
structure TripDescriptor where
  routeId : Option String
deriving DecidableEq, Repr

/-- gtfsrt.TripUpdate. -/
structure TripUpdate where
  trip : Option TripDescriptor
  stopTimeUpdate : List StopTimeUpdate
deriving DecidableEq, Repr

/-- Update the station stored under `key` (mutation through the map's
station pointer in Go). -/
def updateStationEntry (m : List (String × Station)) (key : String) (f : Station → Station) :
    List (String × Station) :=
  m.map (fun e => if e.1 == key then (e.1, f e.2) else e)

/-- The body of the `for _, stopTimeUpdate := range tripUpdate.StopTimeUpdate`
loop of feed.processTripUpdate, for a single sub-event: an `.error` is a
`return fmt.Errorf(...)` from the Go loop (no mutation happens on any failure
path, since the append is the last step of the body); `.ok` carries the
working copy with the arrival appended.  `now` is the processing instant in
nanoseconds. -/
def processOneStopTime (now : Int) (routeName : String) (stu : StopTimeUpdate)
    (stations : List (String × Station)) : Except String (List (String × Station)) :=
  match stu.stopId, stu.arrival with
  | none, _ => .error "stop time update is missing required fields"
  | _, none => .error "stop time update is missing required fields"
  | some stopID, some arrival =>
    -- Extract parent station ID (remove direction suffix)
    let lastIsN := stopID.data ≠ [] ∧ stopID.data.getLast! = 'N'
    let lastIsS := stopID.data ≠ [] ∧ stopID.data.getLast! = 'S'
    let parentStationID :=
      if lastIsN ∨ lastIsS then ⟨stopID.data.dropLast⟩ else stopID
    let direction : String := if lastIsN then "North" else if lastIsS then "South" else ""
    match lookupStation stations parentStationID with
    | none => .error ("station not found: " ++ parentStationID)
    | some _ =>
      let arrivalTime? : Option Int :=
        match arrival.time with
        | some t => some (t * nsPerSec)
        | none =>
          match arrival.delay with
          | some d => some (now + d * nsPerSec)
          | none => none
      match arrivalTime? with
      | none => .error "no usable time data"
      | some arrivalTime =>
        if now - arrivalTime > 60 * nsPerSec then
          .error "arrival time is more than 1 minute ago"
        else
          let train : Train := { route := routeName, time := arrivalTime }
          if direction == "North" then
            .ok (updateStationEntry stations parentStationID
              (fun st => { st with trains := { st.trains with north := st.trains.north ++ [train] } }))
          else if direction == "South" then
            .ok (updateStationEntry stations parentStationID
              (fun st => { st with trains := { st.trains with south := st.trains.south ++ [train] } }))
          else
            .error ("invalid direction: " ++ direction)

/-- The full sub-event loop of feed.processTripUpdate.  Returns the (possibly
partially) mutated working copy together with the error, if any: the Go loop
`return`s on the first failing sub-event, keeping the mutations made for the
preceding sub-events. -/
def processStopTimes (now : Int) (routeName : String) :
    List StopTimeUpdate → List (String × Station) → List (String × Station) × Option String
  | [], stations => (stations, none)
  | stu :: rest, stations =>
    match processOneStopTime now routeName stu stations with
    | .error e => (stations, some e)
    | .ok stations' => processStopTimes now routeName rest stations'

/-- feed.processTripUpdate: validate the trip descriptor and route ID, then
run the stop-time loop. -/
def processTripUpdate (now : Int) (tu : TripUpdate) (stations : List (String × Station)) :
    List (String × Station) × Option String :=
  match tu.trip with
  | none => (stations, some "trip update is missing required fields")
  | some trip =>
    match trip.routeId with
    | none => (stations, some "trip update is missing required fields")
    | some routeID =>
      let routeName := extractRouteFromID routeID
      if routeName == "" then (stations, some ("invalid route ID: " ++ routeID))
      else processStopTimes now routeName tu.stopTimeUpdate stations

/-- gtfsrt.TranslatedString.Translation entry. -/
structure Translation where
  text : Option String
deriving DecidableEq, Repr

/-- gtfsrt.TranslatedString. -/
structure TranslatedString where
  translation : List Translation
deriving DecidableEq, Repr

/-- gtfsrt.EntitySelector. -/
structure EntitySelector where
  routeId : Option String
  stopId : Option String
deriving DecidableEq, Repr

/-- gtfsrt.TimeRange (alert active period); unix seconds, both optional. -/
structure ActivePeriodMsg where
  startT : Option Int
  endT : Option Int
deriving DecidableEq, Repr

/-- gtfsrt.Alert. -/
structure GAlert where
  headerText : Option TranslatedString
  descriptionText : Option TranslatedString
  informedEntity : List EntitySelector
  activePeriod : List ActivePeriodMsg
deriving DecidableEq, Repr

/-- Strip a trailing direction character from a stop identifier, as done for
alert informed entities in feed.processAlert. -/
def stripDirChar (stopID : String) : String :=
  if stopID.data ≠ [] ∧ (stopID.data.getLast! = 'N' ∨ stopID.data.getLast! = 'S') then
    ⟨stopID.data.dropLast⟩
  else stopID

/-- The alert model built by feed.processAlert, or `none` where the Go code
returns early (missing header text).  `nowSec` is `time.Now().Unix()`. -/
def mkAlert (nowSec : Int) (a : GAlert) : Option Alert :=
  match a.headerText with
  | none => none
  | some ht =>
    match ht.translation with
    | [] => none
    | t0 :: _ =>
      match t0.text with
      | none => none
      | some headerText =>
        let descriptionText :=
          match a.descriptionText with
          | some dt =>
            match dt.translation with
            | d0 :: _ => d0.text.getD ""
            | [] => ""
          | none => ""
        let routes := a.informedEntity.filterMap (fun e =>
          match e.routeId with
          | some rid =>
            let rn := extractRouteFromID rid
            if rn == "" then none else some rn
          | none => none)
        let stationIDs := a.informedEntity.filterMap (fun e =>
          match e.stopId with
          | some sid => some (stripDirChar sid)
          | none => none)
        let activePeriods := a.activePeriod.map (fun p =>
          { startT := p.startT.map (fun t => t * nsPerSec)
            endT := p.endT.map (fun t => t * nsPerSec) : TimePeriod })
        some
          { id := "rt_" ++ toString nowSec
            header := headerText
            description := descriptionText
            routes := routes
            stations := stationIDs
            activePeriods := activePeriods }

/-- feed.processAlert: build the alert model, then append it to the store's
current alert list (`GetServiceAlerts` + `append` + `UpdateAlerts`); return
the store unchanged when the header is unusable. -/
def processAlert (nowSec : Int) (a : GAlert) (s : Store) : Store :=
  match mkAlert nowSec a with
  | none => s
  | some alertModel => UpdateAlerts s (GetServiceAlerts s ++ [alertModel])

/-- The fields of feed.Manager that drive the static-refresh decision in
feed.update.  `lastStaticUpdate = none` models the zero `time.Time`. -/
structure ManagerState where
  staticsLoaded : Bool
  lastStaticUpdate : Option Int
deriving DecidableEq, Repr

/-- Outcome of one merge cycle (one call of feed.update):  the new manager
state, whether the real-time phase (`updateRealTimeData`) was reached, and
the returned error.  `staticOk` is the oracle for whether
`loadStaticGTFSData` would succeed this cycle. -/
structure CycleOutcome where
  newState : ManagerState
  realtimeAttempted : Bool
  err : Option String
deriving DecidableEq, Repr

/-- feed.update: the static-refresh decision and control flow.  `now` and
`staticInterval` are in nanoseconds. -/
def updateCycle (m : ManagerState) (now staticInterval : Int) (staticOk : Bool) : CycleOutcome :=
  let needsStaticUpdate :=
    !m.staticsLoaded ||
      (decide (staticInterval > 0) && m.lastStaticUpdate.isSome &&
        decide (now - m.lastStaticUpdate.getD 0 > staticInterval))
  if needsStaticUpdate then
    if staticOk then
      { newState := { staticsLoaded := true, lastStaticUpdate := some now }
        realtimeAttempted := true
        err := none }
    else if !m.staticsLoaded then
      -- First load failed: `return fmt.Errorf(...)` before updateRealTimeData
      { newState := m
        realtimeAttempted := false
        err := some "failed to load initial static GTFS data" }
    else
      -- Refresh failed with existing data: warn and continue
      { newState := m, realtimeAttempted := true, err := none }
  else
    { newState := m, realtimeAttempted := true, err := none }

/-- Concrete station used by the C1 witness. -/
def c1Station : Station :=
  { id := "S1", name := "A", location := ⟨0, 0⟩, routes := ["N"]
    trains :=
      { north := [⟨"N", 300 * nsPerSec⟩, ⟨"Q", 120 * nsPerSec⟩, ⟨"N", 300 * nsPerSec⟩]
        south := [] }
    stops := [], lastUpdate := 0 }

/-- Concrete working copy used by the C1 witness. -/
def c1Work : List (String × Station) := [("S1", c1Station)]

/-- Concrete station map used by the C2 counterexample: one known station. -/
def c2Station : Station :=
  { id := "R16", name := "Times Sq", location := ⟨0, 0⟩, routes := ["N"]
    trains := { north := [], south := [] }, stops := [], lastUpdate := 0 }

/-- Concrete working copy for C2. -/
def c2Stations : List (String × Station) := [("R16", c2Station)]

/-- A stop-time sub-event whose parent stop is not in the working copy. -/
def c2Bad : StopTimeUpdate := { stopId := some "ZZZN", arrival := some { time := some 100, delay := none } }

/-- A stop-time sub-event that succeeds on its own. -/
def c2Good : StopTimeUpdate := { stopId := some "R16N", arrival := some { time := some 100, delay := none } }

/-- Trip update carrying the failing sub-event followed by the good one. -/
def c2TripBoth : TripUpdate := { trip := some ⟨some "N20241201"⟩, stopTimeUpdate := [c2Bad, c2Good] }

/-- Trip update carrying only the good sub-event. -/
def c2TripGood : TripUpdate := { trip := some ⟨some "N20241201"⟩, stopTimeUpdate := [c2Good] }

/-- An advisory already stored before the cycle under scrutiny (C3). -/
def c3OldAlert : Alert :=
  { id := "old", header := "Old", description := "", routes := [], stations := [], activePeriods := [] }

/-- A decodable advisory event (C3). -/
def c3Event : GAlert :=
  { headerText := some ⟨[⟨some "Service Alert"⟩]⟩, descriptionText := none
    informedEntity := [], activePeriod := [] }

/-- Store holding a previously stored advisory (C3). -/
def c3Store : Store := { NewStore with alerts := [c3OldAlert] }

/-- Two stations sharing the display name, both serving route N (C5). -/
def c5S1 : Station :=
  { id := "1", name := "X", location := ⟨0, 0⟩, routes := ["N"]
    trains := { north := [], south := [] }, stops := [], lastUpdate := 0 }

/-- Second station of the C5 counterexample. -/
def c5S2 : Station :=
  { id := "2", name := "X", location := ⟨0, 0⟩, routes := ["N"]
    trains := { north := [], south := [] }, stops := [], lastUpdate := 0 }

/-- One iteration order of the C5 stop map. -/
def c5E1 : List (String × Station) := [("1", c5S1), ("2", c5S2)]

/-- The other iteration order of the same stop map. -/
def c5E2 : List (String × Station) := [("2", c5S2), ("1", c5S1)]

/-- Station of the C5 amended witness (distinct names). -/
def c5T1 : Station :=
  { id := "1", name := "Alpha", location := ⟨0, 0⟩, routes := ["N"]
    trains := { north := [], south := [] }, stops := [], lastUpdate := 0 }

/-- Second station of the C5 amended witness. -/
def c5T2 : Station :=
  { id := "2", name := "Beta", location := ⟨0, 0⟩, routes := ["N", "Q"]
    trains := { north := [], south := [] }, stops := [], lastUpdate := 0 }

/-- One iteration order of the C5 amended-witness map. -/
def c5F1 : List (String × Station) := [("1", c5T1), ("2", c5T2)]

/-- The other iteration order of the C5 amended-witness map. -/
def c5F2 : List (String × Station) := [("2", c5T2), ("1", c5T1)]

/-- Concrete station for the C7 witness. -/
def c7Station : Station :=
  { id := "123", name := "Times Square", location := ⟨0, 0⟩, routes := ["N"]
    trains := { north := [], south := [] }, stops := [], lastUpdate := 0 }

/-- Concrete store for the C7 witness. -/
def c7Store : Store := { NewStore with stations := [("123", c7Station)] }

/-!  Theorems.  -/

theorem char_toNat_ofNat_valid {n : Nat} (h : n.isValidChar) : (Char.ofNat n).toNat = n := by
  simp only [Char.ofNat]
  rw [dif_pos h]
  rfl

theorem char_toUpper_toLower (c : Char) : c.toLower.toUpper = c.toUpper := by
  by_cases h : c.toNat ≥ 65 ∧ c.toNat ≤ 90
  · have hlow : c.toLower = Char.ofNat (c.toNat + 32) := by
      simp only [Char.toLower]
      rw [if_pos h]
    have hv : (c.toNat + 32).isValidChar := Or.inl (by omega)
    have ht : (Char.ofNat (c.toNat + 32)).toNat = c.toNat + 32 := char_toNat_ofNat_valid hv
    have hup1 : (Char.ofNat (c.toNat + 32)).toUpper = Char.ofNat (c.toNat + 32 - 32) := by
      simp only [Char.toUpper, ht]
      rw [if_pos (by omega)]
    have hup2 : c.toUpper = c := by
      simp only [Char.toUpper]
      rw [if_neg (by omega)]
    have harith : c.toNat + 32 - 32 = c.toNat := by omega
    rw [hlow, hup1, hup2, harith, Char.ofNat_toNat]
  · have hlow : c.toLower = c := by
      simp only [Char.toLower]
      rw [if_neg h]
    rw [hlow]

theorem strToUpper_strToLower (s : String) : strToUpper (strToLower s) = strToUpper s := by
  simp only [strToUpper, strToLower, List.map_map]
  exact congrArg String.mk (List.map_congr_left (fun a _ => char_toUpper_toLower a))

/-- Claim C8 (confirmed): queryByRoute is case-insensitive — for every store
and code `c`, `GetStationsByRoute s c` and `GetStationsByRoute s (lowercase c)`
return identical results, and the query fails (with the NotFound error)
exactly when the uppercased code has no entry in the route index. -/
theorem claim_C8_queryByRoute_case_insensitive (s : Store) (c : String) :
    GetStationsByRoute s c = GetStationsByRoute s (strToLower c) ∧
      ((∃ msg, GetStationsByRoute s c = .error msg) ↔
        lookupBucket s.stationsByRoute (strToUpper c) = none) := by
  constructor
  · simp only [GetStationsByRoute, strToUpper_strToLower]
  · simp only [GetStationsByRoute]
    cases h : lookupBucket s.stationsByRoute (strToUpper c) with
    | none => simp
    | some l => simp

/-- Claim C9 (confirmed): route-code normalization maps "A20241201" to "A",
"N20241201" to "N", "123_20241201" to "123_", "1" to "1", and "" to "". -/
theorem claim_C9_route_normalization_examples :
    extractRouteFromID "A20241201" = "A" ∧
      extractRouteFromID "N20241201" = "N" ∧
        extractRouteFromID "123_20241201" = "123_" ∧
          extractRouteFromID "1" = "1" ∧
            extractRouteFromID "" = "" := by
  refine ⟨?_, ?_, ?_, ?_, ?_⟩ <;> decide

/-- Claim C10 (confirmed): route-code normalization always returns a leading
segment of its input — there is a suffix `t` with
`input = extractRouteFromID input ++ t` (at the character-list level). -/
theorem claim_C10_route_normalization_front_segment (s : String) :
    ∃ t, s.data = (extractRouteFromID s).data ++ t := by
  simp only [extractRouteFromID]
  by_cases h : (decide (8 ≤ s.data.length) && (s.data.drop (s.data.length - 8)).all isDigitChar) = true
  · rw [if_pos h]
    exact ⟨s.data.drop (s.data.length - 8), (List.take_append_drop _ _).symm⟩
  · rw [if_neg h]
    cases hfc : fallbackCut s.data 0 with
    | none => exact ⟨[], (List.append_nil _).symm⟩
    | some i => exact ⟨s.data.drop i, (List.take_append_drop _ _).symm⟩

/-- Claim C4 (counterexample): in the cycle where the very first static
catalog load fails, feed.update returns the error before reaching
updateRealTimeData, so the real-time refresh phase is not attempted. -/
theorem claim_C4_counterexample :
    (updateCycle ⟨false, none⟩ 0 21600000000000 false).realtimeAttempted = false ∧
      (updateCycle ⟨false, none⟩ 0 21600000000000 false).err =
        some "failed to load initial static GTFS data" := by
  decide

/-- Claim C4 (amended): the real-time refresh phase is attempted in every
merge cycle except the one in which the static load is attempted with no
static data ever loaded and fails — precisely, it is attempted iff static
data was already loaded or the static load (if any) succeeds; and the cycle
returns an error exactly in that excepted case. -/
theorem claim_C4_realtime_attempt_characterization (m : ManagerState) (now i : Int) (ok : Bool) :
    (updateCycle m now i ok).realtimeAttempted = (m.staticsLoaded || ok) ∧
      (updateCycle m now i ok).err.isSome = (!m.staticsLoaded && !ok) := by
  cases hL : m.staticsLoaded <;> cases hk : ok <;>
    simp only [updateCycle, hL, hk, Bool.not_true, Bool.not_false, Bool.true_or,
      Bool.false_or, Bool.or_true, Bool.or_false, Bool.true_and, Bool.false_and,
      Bool.and_true, Bool.and_false, Bool.true_or, if_true, if_false] <;>
    constructor <;>
    first
      | rfl
      | trivial
      | (split <;> rfl)

/-- Claim C3 (counterexample): feed.processAlert appends the freshly decoded
advisory to the advisories already in the store instead of replacing the list
— after processing one advisory event against a store already holding an old
advisory, the stored list is [old, new], not [new]. -/
theorem claim_C3_counterexample :
    mkAlert 5 c3Event = some
        { id := "rt_5", header := "Service Alert", description := ""
          routes := [], stations := [], activePeriods := [] } ∧
      (processAlert 5 c3Event c3Store).alerts =
        [c3OldAlert,
          { id := "rt_5", header := "Service Alert", description := ""
            routes := [], stations := [], activePeriods := [] }] ∧
      (processAlert 5 c3Event c3Store).alerts ≠
        [{ id := "rt_5", header := "Service Alert", description := ""
           routes := [], stations := [], activePeriods := [] }] := by
  refine ⟨?_, ?_, ?_⟩ <;> decide

/-- Claim C3 (amended): each advisory event decoded during a merge cycle is
appended to the store's current advisory list (which is only reset when the
static catalog is reloaded); the list is never replaced wholesale by the
real-time cycle. -/
theorem claim_C3_processAlert_appends (nowSec : Int) (a : GAlert) (s : Store) (al : Alert)
    (h : mkAlert nowSec a = some al) :
    (processAlert nowSec a s).alerts = s.alerts ++ [al] := by
  simp only [processAlert, h, UpdateAlerts, GetServiceAlerts]

/-- Concrete instantiation of the C3 amended theorem. -/
theorem claim_C3_witness :
    (processAlert 5 c3Event c3Store).alerts =
      c3Store.alerts ++
        [{ id := "rt_5", header := "Service Alert", description := ""
           routes := [], stations := [], activePeriods := [] }] :=
  claim_C3_processAlert_appends 5 c3Event c3Store _ (by decide)

theorem getStationsByIDs_foldl (m : List (String × Station)) (ids : List String)
    (acc : List Station) :
    ids.foldl (fun acc id =>
        match lookupStation m id with
        | some st => acc ++ [st]
        | none => acc) acc = acc ++ ids.filterMap (lookupStation m) := by
  induction ids generalizing acc with
  | nil => simp
  | cons id rest ih =>
    simp only [List.foldl_cons, List.filterMap_cons]
    cases h : lookupStation m id with
    | none => simp only [h, ih]
    | some st => simp only [h, ih, List.append_assoc, List.singleton_append]

/-- Claim C7 (confirmed): queryByIDs fails with NotFound exactly when none of
the requested identifiers exist (including an empty request); otherwise it
returns, without error, exactly the stops whose identifiers exist, in request
order, silently omitting unknown identifiers. -/
theorem claim_C7_queryByIDs_notfound_iff (s : Store) (ids : List String) :
    (GetStationsByIDs s ids = .error "no stations found for given IDs" ↔
        ∀ id ∈ ids, lookupStation s.stations id = none) ∧
      ((∃ id ∈ ids, lookupStation s.stations id ≠ none) →
        GetStationsByIDs s ids = .ok (ids.filterMap (lookupStation s.stations))) := by
  have hfold := getStationsByIDs_foldl s.stations ids []
  constructor
  · constructor
    · intro herr
      simp only [GetStationsByIDs, hfold, List.nil_append] at herr
      by_cases hemp : (ids.filterMap (lookupStation s.stations)).isEmpty = true
      · rw [List.isEmpty_iff] at hemp
        exact (List.filterMap_eq_nil_iff).mp hemp
      · rw [if_neg hemp] at herr
        exact absurd herr (by simp)
    · intro hall
      have hnil : ids.filterMap (lookupStation s.stations) = [] :=
        (List.filterMap_eq_nil_iff).mpr hall
      simp only [GetStationsByIDs, hfold, List.nil_append, hnil]
      rfl
  · rintro ⟨id, hmem, hsome⟩
    cases hlk : lookupStation s.stations id with
    | none => exact absurd hlk hsome
    | some st =>
      have hmem' : st ∈ ids.filterMap (lookupStation s.stations) :=
        List.mem_filterMap.mpr ⟨id, hmem, hlk⟩
      have hne : (ids.filterMap (lookupStation s.stations)).isEmpty = false := by
        cases hc : ids.filterMap (lookupStation s.stations) with
        | nil => rw [hc] at hmem'; cases hmem'
        | cons a l => simp
      simp only [GetStationsByIDs, hfold, List.nil_append, hne]
      rfl

/-- Concrete instantiation of the C7 theorem: a request mixing one known and
one unknown identifier succeeds with exactly the known station. -/
theorem claim_C7_witness :
    GetStationsByIDs c7Store ["123", "999"] =
      .ok ((["123", "999"]).filterMap (lookupStation c7Store.stations)) :=
  (claim_C7_queryByIDs_notfound_iff c7Store ["123", "999"]).2
    ⟨"123", by decide, by decide⟩

/-- Claim C2 (counterexample): within one trip-update, a failing stop-time
sub-event (here: parent stop "ZZZ" not in the working copy) makes
feed.processTripUpdate return immediately, so the following sub-event —
which succeeds when processed on its own — is never processed and its
arrival is not appended. -/
theorem claim_C2_counterexample :
    processTripUpdate 0 c2TripBoth c2Stations = (c2Stations, some "station not found: ZZZ") ∧
      processTripUpdate 0 c2TripGood c2Stations =
        ([("R16",
            { c2Station with
              trains := { north := [⟨"N", 100 * nsPerSec⟩], south := [] } })], none) := by
  constructor <;> decide

/-- Claim C2 (amended): a failing stop-time sub-event aborts the processing of
the entire trip-update — the sub-events before the first failure are fully
processed and their arrivals kept, while the failing sub-event and every
later sub-event of the same trip-update are skipped. -/
theorem claim_C2_failure_aborts_trip (now : Int) (r : String) (stus : List StopTimeUpdate)
    (stations : List (String × Station))
    (h : (processStopTimes now r stus stations).2.isSome = true) :
    ∃ k, k < stus.length ∧
      (processStopTimes now r (stus.take k) stations).2 = none ∧
      (processStopTimes now r stus stations).1 =
        (processStopTimes now r (stus.take k) stations).1 := by
  induction stus generalizing stations with
  | nil => simp [processStopTimes] at h
  | cons stu rest ih =>
    cases hstep : processOneStopTime now r stu stations with
    | error e =>
      refine ⟨0, by simp, by simp [processStopTimes], ?_⟩
      simp [processStopTimes, hstep]
    | ok stations' =>
      have h' : (processStopTimes now r rest stations').2.isSome = true := by
        simpa [processStopTimes, hstep] using h
      obtain ⟨k, hk, h2, h1⟩ := ih stations' h'
      refine ⟨k + 1, by simpa using Nat.succ_lt_succ hk, ?_, ?_⟩
      · simpa [processStopTimes, hstep] using h2
      · simpa [processStopTimes, hstep] using h1

/-- Concrete instantiation of the C2 amended theorem on the two-sub-event
trip-update of the counterexample. -/
theorem claim_C2_witness :
    (processStopTimes 0 "N" [c2Bad, c2Good] c2Stations).2.isSome = true ∧
      ∃ k, k < ([c2Bad, c2Good]).length ∧
        (processStopTimes 0 "N" (([c2Bad, c2Good]).take k) c2Stations).2 = none ∧
        (processStopTimes 0 "N" [c2Bad, c2Good] c2Stations).1 =
          (processStopTimes 0 "N" (([c2Bad, c2Good]).take k) c2Stations).1 :=
  ⟨by decide, claim_C2_failure_aborts_trip 0 "N" [c2Bad, c2Good] c2Stations (by decide)⟩

theorem selMin_length (x : Train) (l : List Train) : (selMin x l).2.length = l.length := by
  induction l generalizing x with
  | nil => rfl
  | cons y ys ih =>
    simp only [selMin]
    split
    · simpa using ih y
    · simpa using ih x

theorem selMin_min (x : Train) (l : List Train) :
    (selMin x l).1.time ≤ x.time ∧ ∀ y ∈ (selMin x l).2, (selMin x l).1.time ≤ y.time := by
  induction l generalizing x with
  | nil =>
    refine ⟨le_refl _, ?_⟩
    intro y hy
    cases hy
  | cons y ys ih =>
    simp only [selMin]
    split
    case isTrue hgt =>
      obtain ⟨ih1, ih2⟩ := ih y
      refine ⟨le_trans ih1 (le_of_lt hgt), ?_⟩
      intro z hz
      rcases List.mem_cons.mp hz with hz | hz
      · subst hz
        exact le_trans ih1 (le_of_lt hgt)
      · exact ih2 z hz
    case isFalse hng =>
      obtain ⟨ih1, ih2⟩ := ih x
      refine ⟨ih1, ?_⟩
      intro z hz
      rcases List.mem_cons.mp hz with hz | hz
      · subst hz
        exact le_trans ih1 (le_of_not_lt hng)
      · exact ih2 z hz

theorem selMin_perm (x : Train) (l : List Train) :
    List.Perm ((selMin x l).1 :: (selMin x l).2) (x :: l) := by
  induction l generalizing x with
  | nil => exact List.Perm.refl _
  | cons y ys ih =>
    simp only [selMin]
    split
    case isTrue hgt =>
      exact (List.Perm.swap x (selMin y ys).1 _).trans ((ih y).cons x)
    case isFalse hng =>
      exact (List.Perm.swap y (selMin x ys).1 _).trans (((ih x).cons y).trans (List.Perm.swap x y ys))

theorem selSortAux_perm (fuel : Nat) (l : List Train) (h : l.length ≤ fuel) :
    List.Perm (selSortAux fuel l) l := by
  induction fuel generalizing l with
  | zero =>
    cases l with
    | nil => exact List.Perm.refl _
    | cons x xs => simp at h
  | succ n ih =>
    cases l with
    | nil => exact List.Perm.refl _
    | cons x xs =>
      simp only [selSortAux]
      have hlen : (selMin x xs).2.length ≤ n := by
        rw [selMin_length]
        simpa using h
      exact ((ih _ hlen).cons _).trans (selMin_perm x xs)

theorem selSortAux_sorted (fuel : Nat) (l : List Train) (h : l.length ≤ fuel) :
    (selSortAux fuel l).Pairwise (fun a b => a.time ≤ b.time) := by
  induction fuel generalizing l with
  | zero => cases l <;> simp [selSortAux]
  | succ n ih =>
    cases l with
    | nil => simp [selSortAux]
    | cons x xs =>
      simp only [selSortAux]
      have hlen : (selMin x xs).2.length ≤ n := by
        rw [selMin_length]
        simpa using h
      refine List.Pairwise.cons ?_ (ih _ hlen)
      intro b hb
      have hb' : b ∈ (selMin x xs).2 := (selSortAux_perm n _ hlen).mem_iff.mp hb
      exact (selMin_min x xs).2 b hb'

theorem selSort_perm (l : List Train) : List.Perm (selSort l) l :=
  selSortAux_perm l.length l (le_refl _)

theorem selSort_sorted (l : List Train) :
    (selSort l).Pairwise (fun a b => a.time ≤ b.time) :=
  selSortAux_sorted l.length l (le_refl _)

theorem mem_keys_upsert (m : List (String × Train)) (k a : String) (v : Train)
    (ha : a ∈ (upsert m k v).map (fun e => e.1)) : a ∈ m.map (fun e => e.1) ∨ a = k := by
  induction m with
  | nil =>
    simp only [upsert, List.map_cons, List.map_nil] at ha
    exact Or.inr (List.mem_singleton.mp ha)
  | cons e rest ih =>
    simp only [upsert] at ha
    by_cases hk : (e.1 == k) = true
    · rw [if_pos hk] at ha
      simp only [List.map_cons] at ha
      rcases List.mem_cons.mp ha with h | h
      · exact Or.inl (List.mem_cons.mpr (Or.inl h))
      · exact Or.inl (List.mem_cons.mpr (Or.inr h))
    · rw [if_neg hk] at ha
      simp only [List.map_cons] at ha
      rcases List.mem_cons.mp ha with h | h
      · exact Or.inl (List.mem_cons.mpr (Or.inl h))
      · rcases ih h with h' | h'
        · exact Or.inl (List.mem_cons.mpr (Or.inr h'))
        · exact Or.inr h'

theorem upsert_keys_nodup (m : List (String × Train)) (k : String) (v : Train)
    (hnd : (m.map (fun e => e.1)).Nodup) : ((upsert m k v).map (fun e => e.1)).Nodup := by
  induction m with
  | nil => simp [upsert]
  | cons e rest ih =>
    simp only [upsert]
    by_cases hk : (e.1 == k) = true
    · rw [if_pos hk]
      simpa using hnd
    · rw [if_neg hk]
      simp only [List.map_cons, List.nodup_cons] at hnd ⊢
      refine ⟨?_, ih hnd.2⟩
      intro hmem
      rcases mem_keys_upsert rest k e.1 v hmem with h | h
      · exact hnd.1 h
      · exact absurd (by simpa using h : e.1 == k) (by simpa using hk)

theorem upsert_consistent (m : List (String × Train)) (k : String) (v : Train)
    (hc : ∀ e ∈ m, e.1 = trainKey e.2) (hk : k = trainKey v) :
    ∀ e ∈ upsert m k v, e.1 = trainKey e.2 := by
  induction m with
  | nil =>
    intro e he
    simp only [upsert] at he
    rw [List.mem_singleton.mp he]
    exact hk
  | cons e0 rest ih =>
    intro e he
    simp only [upsert] at he
    by_cases hq : (e0.1 == k) = true
    · rw [if_pos hq] at he
      rcases List.mem_cons.mp he with h | h
      · rw [h]
        exact (by simpa using hq : e0.1 = k).trans hk
      · exact hc e (List.mem_cons_of_mem _ h)
    · rw [if_neg hq] at he
      rcases List.mem_cons.mp he with h | h
      · exact h ▸ hc e0 (List.mem_cons_self _ _)
      · exact ih (fun e' he' => hc e' (List.mem_cons_of_mem _ he')) e h

theorem trainFold_invariant (ts : List Train) (m : List (String × Train))
    (h1 : (m.map (fun e => e.1)).Nodup) (h2 : ∀ e ∈ m, e.1 = trainKey e.2) :
    ((ts.foldl (fun m t => upsert m (trainKey t) t) m).map (fun e => e.1)).Nodup ∧
      ∀ e ∈ ts.foldl (fun m t => upsert m (trainKey t) t) m, e.1 = trainKey e.2 := by
  induction ts generalizing m with
  | nil => exact ⟨h1, h2⟩
  | cons t rest ih =>
    simp only [List.foldl_cons]
    exact ih _ (upsert_keys_nodup m (trainKey t) t h1)
      (upsert_consistent m (trainKey t) t h2 rfl)

theorem trainMap_values_pairwise (ts : List Train) :
    ((ts.foldl (fun m t => upsert m (trainKey t) t) []).map (fun e => e.2)).Pairwise
      (fun a b => trainKey a ≠ trainKey b) := by
  obtain ⟨h1, h2⟩ := trainFold_invariant ts [] (by simp) (by simp)
  have hkeys : (ts.foldl (fun m t => upsert m (trainKey t) t) []).map (fun e => e.1) =
      (ts.foldl (fun m t => upsert m (trainKey t) t) []).map (fun e => trainKey e.2) :=
    List.map_congr_left h2
  rw [hkeys] at h1
  have hpw := (List.pairwise_map).mp h1
  exact (List.pairwise_map).mpr hpw

theorem sortAndLimitTrains_length (l : List Train) : (sortAndLimitTrains l).length ≤ 10 := by
  simp only [sortAndLimitTrains]
  split
  case isTrue h =>
    rw [List.isEmpty_iff.mp h]
    simp
  case isFalse h => exact List.length_take_le _ _

theorem sortAndLimitTrains_sorted (l : List Train) :
    (sortAndLimitTrains l).Pairwise (fun a b => a.time ≤ b.time) := by
  simp only [sortAndLimitTrains]
  split
  case isTrue h =>
    rw [List.isEmpty_iff.mp h]
    simp
  case isFalse h =>
    exact List.Pairwise.sublist (List.take_sublist _ _) (selSort_sorted _)

theorem sortAndLimitTrains_distinct_keys (l : List Train) :
    (sortAndLimitTrains l).Pairwise (fun a b => trainKey a ≠ trainKey b) := by
  simp only [sortAndLimitTrains]
  split
  case isTrue h =>
    rw [List.isEmpty_iff.mp h]
    simp
  case isFalse h =>
    have hsymm : Symmetric (fun a b : Train => trainKey a ≠ trainKey b) :=
      fun _ _ hab => fun hba => hab hba.symm
    have hperm := selSort_perm ((l.foldl (fun m t => upsert m (trainKey t) t) []).map (fun e => e.2))
    have hpw := (hperm.pairwise_iff (fun hab => hsymm hab)).mpr (trainMap_values_pairwise l)
    exact List.Pairwise.sublist (List.take_sublist _ _) hpw

/-- Claim C1 (confirmed): after any merge cycle — i.e. for any working copy
`work` produced by feed processing, after the final cleanup loop of
feed.updateRealTimeData and installation via store.UpdateStations — every
stop's North and South arrival lists have length at most 10, are sorted
ascending by arrival time, and contain no two entries with the same
(route, arrival-instant) pair. -/
theorem claim_C1_arrivals_sorted_limited_deduped (work : List (String × Station))
    (now now' : Int) (s : Store) (kv : String × Station)
    (hmem : kv ∈ (UpdateStations s (finalizeAll now work) now').stations) :
    (kv.2.trains.north.length ≤ 10 ∧
      kv.2.trains.north.Pairwise (fun a b => a.time ≤ b.time) ∧
      kv.2.trains.north.Pairwise (fun a b => ¬(a.route = b.route ∧ a.time = b.time))) ∧
    (kv.2.trains.south.length ≤ 10 ∧
      kv.2.trains.south.Pairwise (fun a b => a.time ≤ b.time) ∧
      kv.2.trains.south.Pairwise (fun a b => ¬(a.route = b.route ∧ a.time = b.time))) := by
  have hmem' : kv ∈ finalizeAll now work := hmem
  obtain ⟨e, he, hkv⟩ := List.mem_map.mp hmem'
  have hn : kv.2.trains.north = sortAndLimitTrains e.2.trains.north := by
    rw [← hkv]
    rfl
  have hs : kv.2.trains.south = sortAndLimitTrains e.2.trains.south := by
    rw [← hkv]
    rfl
  have keyimp : ∀ l : List Train, l.Pairwise (fun a b => trainKey a ≠ trainKey b) →
      l.Pairwise (fun a b => ¬(a.route = b.route ∧ a.time = b.time)) := by
    intro l hl
    refine hl.imp ?_
    intro a b hne hab
    exact hne (by simp only [trainKey, hab.1, hab.2])
  constructor
  · rw [hn]
    exact ⟨sortAndLimitTrains_length _, sortAndLimitTrains_sorted _,
      keyimp _ (sortAndLimitTrains_distinct_keys _)⟩
  · rw [hs]
    exact ⟨sortAndLimitTrains_length _, sortAndLimitTrains_sorted _,
      keyimp _ (sortAndLimitTrains_distinct_keys _)⟩

/-- Concrete instantiation of the C1 theorem on a working copy with one
station holding three raw north arrivals (one duplicate). -/
theorem claim_C1_witness :
    ("S1", finalizeStation 7 c1Station) ∈
        (UpdateStations NewStore (finalizeAll 7 c1Work) 7).stations ∧
      (((("S1", finalizeStation 7 c1Station) : String × Station).2.trains.north.length ≤ 10 ∧
        (("S1", finalizeStation 7 c1Station) : String × Station).2.trains.north.Pairwise
          (fun a b => a.time ≤ b.time) ∧
        (("S1", finalizeStation 7 c1Station) : String × Station).2.trains.north.Pairwise
          (fun a b => ¬(a.route = b.route ∧ a.time = b.time))) ∧
      ((("S1", finalizeStation 7 c1Station) : String × Station).2.trains.south.length ≤ 10 ∧
        (("S1", finalizeStation 7 c1Station) : String × Station).2.trains.south.Pairwise
          (fun a b => a.time ≤ b.time) ∧
        (("S1", finalizeStation 7 c1Station) : String × Station).2.trains.south.Pairwise
          (fun a b => ¬(a.route = b.route ∧ a.time = b.time)))) :=
  ⟨by decide,
    claim_C1_arrivals_sorted_limited_deduped c1Work 7 7 NewStore
      ("S1", finalizeStation 7 c1Station) (by decide)⟩

theorem lookupBucket_cons (k : String) (l : List Station) (rest : List (String × List Station))
    (q : String) :
    lookupBucket ((k, l) :: rest) q = if k == q then some l else lookupBucket rest q := by
  simp only [lookupBucket, List.find?_cons]
  cases h : (k == q) <;> simp [h]

theorem optAppend_assoc (o : Option (List Station)) (l₁ l₂ : List Station) :
    optAppend (optAppend o l₁) l₂ = optAppend o (l₁ ++ l₂) := by
  cases l₁ with
  | nil => simp [optAppend]
  | cons a as =>
    cases l₂ with
    | nil => simp [optAppend]
    | cons b bs => simp [optAppend, List.append_assoc]

theorem lookupBucket_appendToBucket (idx : List (String × List Station)) (r : String)
    (st : Station) (q : String) :
    lookupBucket (appendToBucket idx r st) q =
      if q = r then some ((lookupBucket idx q).getD [] ++ [st]) else lookupBucket idx q := by
  induction idx with
  | nil =>
    by_cases h : q = r
    · subst h
      simp [appendToBucket, lookupBucket]
    · have h' : (r == q) = false := by simpa using Ne.symm h
      simp [appendToBucket, lookupBucket, h, h']
  | cons e rest ih =>
    obtain ⟨k, l⟩ := e
    simp only [appendToBucket]
    by_cases hk : (k == r) = true
    · rw [if_pos hk]
      have hkr : k = r := by simpa using hk
      subst hkr
      by_cases hq : q = k
      · subst hq
        simp [lookupBucket_cons]
      · have h1 : (k == q) = false := by simpa using Ne.symm hq
        simp [lookupBucket_cons, h1, hq]
    · rw [if_neg hk]
      have hkr : ¬ k = r := by simpa using hk
      by_cases hq : q = k
      · subst hq
        have h2 : ¬ q = r := fun hqr => hkr hqr
        simp [lookupBucket_cons, h2]
      · have h1 : (k == q) = false := by simpa using Ne.symm hq
        rw [lookupBucket_cons, lookupBucket_cons, h1]
        simp only [Bool.false_eq_true, if_false]
        rw [ih]

theorem lookupBucket_foldRoutes (rs : List String) (idx : List (String × List Station))
    (st : Station) (q : String) :
    lookupBucket (rs.foldl (fun i x => appendToBucket i x st) idx) q =
      optAppend (lookupBucket idx q) ((rs.filter (fun x => x == q)).map (fun _ => st)) := by
  induction rs generalizing idx with
  | nil => simp [optAppend]
  | cons r0 rs ih =>
    simp only [List.foldl_cons]
    rw [ih (appendToBucket idx r0 st), lookupBucket_appendToBucket]
    by_cases h : q = r0
    · subst h
      rw [if_pos rfl]
      have hone : some ((lookupBucket idx q).getD [] ++ [st]) = optAppend (lookupBucket idx q) [st] := by
        simp [optAppend]
      rw [hone, optAppend_assoc]
      congr 1
      simp [List.filter_cons]
    · rw [if_neg h]
      congr 1
      have h' : (r0 == q) = false := by simpa using Ne.symm h
      simp [List.filter_cons, h']

theorem lookupBucket_buildFold (entries : List (String × Station))
    (idx : List (String × List Station)) (q : String) :
    lookupBucket (entries.foldl (fun i e => addStationRoutes i e.2) idx) q =
      optAppend (lookupBucket idx q) (bucketsConcat entries q) := by
  induction entries generalizing idx with
  | nil => simp [bucketsConcat, optAppend]
  | cons e es ih =>
    simp only [List.foldl_cons]
    rw [ih]
    simp only [addStationRoutes]
    rw [lookupBucket_foldRoutes, optAppend_assoc]
    rfl

theorem lookupBucket_buildIndex (entries : List (String × Station)) (q : String) :
    lookupBucket (buildIndex entries) q =
      if (bucketsConcat entries q).isEmpty then none else some (bucketsConcat entries q) := by
  have h := lookupBucket_buildFold entries [] q
  simp only [buildIndex] at *
  rw [h]
  have hnil : lookupBucket [] q = none := rfl
  rw [hnil]
  simp [optAppend]

theorem lookupBucket_sortBuckets (idx : List (String × List Station)) (q : String) :
    lookupBucket (sortBuckets idx) q =
      (lookupBucket idx q).map (fun l => l.insertionSort nameLe) := by
  induction idx with
  | nil => rfl
  | cons e rest ih =>
    obtain ⟨k, l⟩ := e
    simp only [sortBuckets, List.map_cons] at *
    rw [lookupBucket_cons, lookupBucket_cons]
    by_cases h : (k == q) = true
    · simp [h]
    · simp only [h, Bool.false_eq_true, if_false]
      exact ih

theorem filter_eq_of_nodup (l : List String) (r : String) (h : l.Nodup) :
    l.filter (fun x => x == r) = if r ∈ l then [r] else [] := by
  induction l with
  | nil => simp
  | cons a as ih =>
    obtain ⟨hnot, has⟩ := List.nodup_cons.mp h
    by_cases har : (a == r) = true
    · have haeq : a = r := by simpa using har
      subst haeq
      have hnmem : ¬ a ∈ as := hnot
      rw [List.filter_cons, if_pos har, ih has, if_neg hnmem]
      simp
    · have hane : ¬ a = r := by simpa using har
      rw [List.filter_cons, if_neg (by simp [har]), ih has]
      by_cases hr : r ∈ as
      · rw [if_pos hr, if_pos (List.mem_cons.mpr (Or.inr hr))]
      · rw [if_neg hr, if_neg (by
          intro hc
          rcases List.mem_cons.mp hc with hc | hc
          · exact hane hc.symm
          · exact hr hc)]

theorem bucketOf_of_nodup (st : Station) (q : String) (h : st.routes.Nodup) :
    bucketOf st q = if q ∈ st.routes then [st] else [] := by
  rw [bucketOf, filter_eq_of_nodup _ _ h]
  by_cases hq : q ∈ st.routes <;> simp [hq]

theorem bucketsConcat_eq (entries : List (String × Station)) (q : String)
    (h : ∀ e ∈ entries, e.2.routes.Nodup) :
    bucketsConcat entries q =
      (entries.filter (fun e => decide (q ∈ e.2.routes))).map (fun e => e.2) := by
  induction entries with
  | nil => rfl
  | cons e es ih =>
    have hcons : bucketsConcat (e :: es) q = bucketOf e.2 q ++ bucketsConcat es q := rfl
    rw [hcons, bucketOf_of_nodup _ _ (h e (List.mem_cons_self _ _)),
      ih (fun e' he' => h e' (List.mem_cons_of_mem _ he'))]
    by_cases hq : q ∈ e.2.routes
    · simp [List.filter_cons, hq]
    · simp [List.filter_cons, hq]

theorem mem_insertNewKey (ks : List String) (a r : String) :
    r ∈ insertNewKey ks a ↔ r ∈ ks ∨ r = a := by
  simp only [insertNewKey]
  by_cases h : a ∈ ks
  · rw [if_pos h]
    constructor
    · exact Or.inl
    · rintro (hr | hr)
      · exact hr
      · exact hr ▸ h
  · rw [if_neg h]
    simp [List.mem_append]

theorem nodup_insertNewKey (ks : List String) (a : String) (h : ks.Nodup) :
    (insertNewKey ks a).Nodup := by
  simp only [insertNewKey]
  by_cases hm : a ∈ ks
  · rw [if_pos hm]
    exact h
  · rw [if_neg hm]
    simp [List.nodup_append, h, hm]

theorem mem_foldl_insertNewKey (rs : List String) (ks : List String) (r : String) :
    r ∈ rs.foldl insertNewKey ks ↔ r ∈ ks ∨ r ∈ rs := by
  induction rs generalizing ks with
  | nil => simp
  | cons a as ih =>
    simp only [List.foldl_cons]
    rw [ih, mem_insertNewKey]
    simp only [List.mem_cons]
    tauto

theorem nodup_foldl_insertNewKey (rs : List String) (ks : List String) (h : ks.Nodup) :
    (rs.foldl insertNewKey ks).Nodup := by
  induction rs generalizing ks with
  | nil => exact h
  | cons a as ih => exact ih _ (nodup_insertNewKey _ _ h)

theorem mem_collectRoutes (entries : List (String × Station)) (r : String) :
    r ∈ collectRoutes entries ↔ ∃ e ∈ entries, r ∈ e.2.routes := by
  suffices hgen : ∀ ks : List String,
      (r ∈ entries.foldl (fun ks e => e.2.routes.foldl insertNewKey ks) ks ↔
        r ∈ ks ∨ ∃ e ∈ entries, r ∈ e.2.routes) by
    simpa [collectRoutes] using hgen []
  intro ks
  induction entries generalizing ks with
  | nil => simp
  | cons e es ih =>
    simp only [List.foldl_cons]
    rw [ih, mem_foldl_insertNewKey]
    simp only [List.mem_cons]
    constructor
    · rintro (( hk | hk) | ⟨e', he', hr⟩)
      · exact Or.inl hk
      · exact Or.inr ⟨e, Or.inl rfl, hk⟩
      · exact Or.inr ⟨e', Or.inr he', hr⟩
    · rintro (hk | ⟨e', he' | he', hr⟩)
      · exact Or.inl (Or.inl hk)
      · exact Or.inl (Or.inr (he' ▸ hr))
      · exact Or.inr ⟨e', he', hr⟩

theorem nodup_collectRoutes (entries : List (String × Station)) :
    (collectRoutes entries).Nodup := by
  suffices hgen : ∀ ks : List String, ks.Nodup →
      (entries.foldl (fun ks e => e.2.routes.foldl insertNewKey ks) ks).Nodup by
    simpa [collectRoutes] using hgen [] (by simp)
  intro ks hks
  induction entries generalizing ks with
  | nil => exact hks
  | cons e es ih => exact ih _ (nodup_foldl_insertNewKey _ _ hks)

theorem find?_key_perm (l₁ l₂ : List (String × Station)) (hp : List.Perm l₁ l₂) (k : String)
    (hnd : (l₁.map (fun e => e.1)).Nodup) :
    l₁.find? (fun e => e.1 == k) = l₂.find? (fun e => e.1 == k) := by
  induction hp with
  | nil => rfl
  | cons x h ih =>
    simp only [List.find?_cons]
    cases hx : (x.1 == k) with
    | true => rfl
    | false =>
      simp only [List.map_cons, List.nodup_cons] at hnd
      exact ih hnd.2
  | swap x y l =>
    simp only [List.find?_cons]
    cases hy : (y.1 == k) with
    | true =>
      cases hx : (x.1 == k) with
      | true =>
        exfalso
        simp only [List.map_cons, List.nodup_cons] at hnd
        have hyx : y.1 = x.1 := by
          have h1 : y.1 = k := by simpa using hy
          have h2 : x.1 = k := by simpa using hx
          rw [h1, h2]
        exact hnd.1 (List.mem_cons.mpr (Or.inl hyx))
      | false => rfl
    | false =>
      cases hx : (x.1 == k) with
      | true => rfl
      | false => rfl
  | trans h₁ h₂ ih₁ ih₂ =>
    rw [ih₁ hnd, ih₂ (((h₁.map (fun e => e.1)).nodup_iff).mp hnd)]

theorem charListLe_total (as bs : List Char) :
    charListLe as bs = true ∨ charListLe bs as = true := by
  induction as generalizing bs with
  | nil => exact Or.inl rfl
  | cons a as ih =>
    cases bs with
    | nil => exact Or.inr rfl
    | cons b bs =>
      rcases lt_trichotomy a b with h | h | h
      · exact Or.inl (by simp [charListLe, h])
      · subst h
        rcases ih bs with h' | h'
        · exact Or.inl (by simp [charListLe, lt_irrefl, h'])
        · exact Or.inr (by simp [charListLe, lt_irrefl, h'])
      · exact Or.inr (by simp [charListLe, h])

theorem charListLe_antisymm (as bs : List Char)
    (h₁ : charListLe as bs = true) (h₂ : charListLe bs as = true) : as = bs := by
  induction as generalizing bs with
  | nil =>
    cases bs with
    | nil => rfl
    | cons b bs => exact absurd h₂ (by simp [charListLe])
  | cons a as ih =>
    cases bs with
    | nil => exact absurd h₁ (by simp [charListLe])
    | cons b bs =>
      rcases lt_trichotomy a b with h | h | h
      · rw [show charListLe (b :: bs) (a :: as) = false by
          simp [charListLe, h, lt_asymm h]] at h₂
        cases h₂
      · subst h
        simp only [charListLe, lt_irrefl, if_false] at h₁ h₂
        rw [ih bs h₁ h₂]
      · rw [show charListLe (a :: as) (b :: bs) = false by
          simp [charListLe, h, lt_asymm h]] at h₁
        cases h₁

theorem charListLe_trans (as bs cs : List Char)
    (h₁ : charListLe as bs = true) (h₂ : charListLe bs cs = true) :
    charListLe as cs = true := by
  induction as generalizing bs cs with
  | nil => rfl
  | cons a as ih =>
    cases bs with
    | nil => exact absurd h₁ (by simp [charListLe])
    | cons b bs =>
      cases cs with
      | nil => exact absurd h₂ (by simp [charListLe])
      | cons c cs =>
        rcases lt_trichotomy a b with hab | hab | hab
        · rcases lt_trichotomy b c with hbc | hbc | hbc
          · simp [charListLe, lt_trans hab hbc]
          · subst hbc
            simp [charListLe, hab]
          · rw [show charListLe (b :: bs) (c :: cs) = false by
              simp [charListLe, hbc, lt_asymm hbc]] at h₂
            cases h₂
        · subst hab
          rcases lt_trichotomy a c with hbc | hbc | hbc
          · simp [charListLe, hbc]
          · subst hbc
            simp only [charListLe, lt_irrefl, if_false] at h₁ h₂ ⊢
            exact ih bs cs h₁ h₂
          · rw [show charListLe (a :: bs) (c :: cs) = false by
              simp [charListLe, hbc, lt_asymm hbc]] at h₂
            cases h₂
        · rw [show charListLe (a :: as) (b :: bs) = false by
            simp [charListLe, hab, lt_asymm hab]] at h₁
          cases h₁

theorem strLe_antisymm (a b : String) (h₁ : strLe a b = true) (h₂ : strLe b a = true) :
    a = b := by
  cases a with
  | mk l₁ =>
    cases b with
    | mk l₂ => exact congrArg String.mk (charListLe_antisymm l₁ l₂ h₁ h₂)

theorem strict_sorted_of_names (L : List Station)
    (hL : L.Pairwise (fun a b => a.name ≠ b.name)) :
    (L.insertionSort nameLe).Pairwise nameLt := by
  haveI : IsTotal Station nameLe := ⟨fun a b => charListLe_total a.name.data b.name.data⟩
  haveI : IsTrans Station nameLe :=
    ⟨fun _ _ _ h h' => charListLe_trans _ _ _ h h'⟩
  have hsorted : (L.insertionSort nameLe).Pairwise nameLe :=
    List.sorted_insertionSort nameLe L
  have hne : (L.insertionSort nameLe).Pairwise (fun a b => a.name ≠ b.name) :=
    ((List.perm_insertionSort nameLe L).pairwise_iff
      (fun hab => fun hba => hab hba.symm)).mpr hL
  refine (hsorted.and hne).imp ?_
  intro a b hab
  exact ⟨hab.1, hab.2⟩

theorem sortedBucket_eq (e₁ e₂ : List (String × Station)) (q : String)
    (hp : List.Perm e₁ e₂)
    (hnames : e₁.Pairwise (fun a b => a.2.name ≠ b.2.name)) :
    ((e₁.filter (fun x => decide (q ∈ x.2.routes))).map (fun x => x.2)).insertionSort nameLe =
      ((e₂.filter (fun x => decide (q ∈ x.2.routes))).map (fun x => x.2)).insertionSort nameLe := by
  have hnames₂ : e₂.Pairwise (fun a b => a.2.name ≠ b.2.name) :=
    (hp.pairwise_iff (fun hab => fun hba => hab hba.symm)).mp hnames
  have hLp : List.Perm
      ((e₁.filter (fun x => decide (q ∈ x.2.routes))).map (fun x => x.2))
      ((e₂.filter (fun x => decide (q ∈ x.2.routes))).map (fun x => x.2)) :=
    (hp.filter _).map _
  have hpw₁ : ((e₁.filter (fun x => decide (q ∈ x.2.routes))).map (fun x => x.2)).Pairwise
      (fun a b => a.name ≠ b.name) :=
    (List.pairwise_map).mpr (List.Pairwise.sublist (List.filter_sublist _) hnames)
  have hpw₂ : ((e₂.filter (fun x => decide (q ∈ x.2.routes))).map (fun x => x.2)).Pairwise
      (fun a b => a.name ≠ b.name) :=
    (List.pairwise_map).mpr (List.Pairwise.sublist (List.filter_sublist _) hnames₂)
  have hperm : List.Perm
      (((e₁.filter (fun x => decide (q ∈ x.2.routes))).map (fun x => x.2)).insertionSort nameLe)
      (((e₂.filter (fun x => decide (q ∈ x.2.routes))).map (fun x => x.2)).insertionSort nameLe) :=
    (List.perm_insertionSort nameLe _).trans (hLp.trans (List.perm_insertionSort nameLe _).symm)
  haveI : IsAntisymm Station nameLt :=
    ⟨fun a b h h' => absurd (strLe_antisymm _ _ h.1 h'.1) h.2⟩
  exact List.eq_of_perm_of_sorted hperm (strict_sorted_of_names _ hpw₁)
    (strict_sorted_of_names _ hpw₂)

theorem lookupBucket_updateStations (s : Store) (e : List (String × Station)) (n : Int)
    (q : String) (hnd : ∀ x ∈ e, x.2.routes.Nodup) :
    lookupBucket (UpdateStations s e n).stationsByRoute q =
      if ((e.filter (fun x => decide (q ∈ x.2.routes))).map (fun x => x.2)).isEmpty then none
      else some (((e.filter (fun x => decide (q ∈ x.2.routes))).map
        (fun x => x.2)).insertionSort nameLe) := by
  show lookupBucket (sortBuckets (buildIndex e)) q = _
  rw [lookupBucket_sortBuckets, lookupBucket_buildIndex, bucketsConcat_eq e q hnd]
  by_cases hb : (((e.filter (fun x => decide (q ∈ x.2.routes))).map (fun x => x.2)).isEmpty) = true
  · rw [if_pos hb, if_pos hb]
    rfl
  · rw [if_neg hb, if_neg hb]
    rfl

/-- Claim C5 (counterexample): installing the same stop map twice — the same
two entries, in the two iteration orders a Go map range may produce — yields
different queryByRoute results when two stops on the same route share a
display name, because the by-name sort cannot separate them.  So the claim,
which asserts identical results for every query after installing the same
map twice in a row, fails. -/
theorem claim_C5_counterexample :
    List.Perm c5E1 c5E2 ∧ (c5E1.map (fun e => e.1)).Nodup ∧
      GetStationsByRoute (UpdateStations (UpdateStations NewStore c5E1 0) c5E2 0) "N" ≠
        GetStationsByRoute (UpdateStations NewStore c5E1 0) "N" := by
  refine ⟨?_, ?_, ?_⟩
  · decide
  · decide
  · decide

/-- Claim C5 (amended): replaceStops is idempotent and its index rebuild
deterministic provided no two stops share a display name and no stop lists
the same route twice: installing any two iteration orders of the same stop
map (same entries, distinct keys) — in particular installing the same map
twice in a row — yields identical results from queryByRoute, listRoutes and
queryByIDs. -/
theorem claim_C5_rebuild_deterministic (s₁ s₂ : Store) (n₁ n₂ : Int)
    (e₁ e₂ : List (String × Station))
    (hp : List.Perm e₁ e₂)
    (hkeys : (e₁.map (fun e => e.1)).Nodup)
    (hnames : e₁.Pairwise (fun a b => a.2.name ≠ b.2.name))
    (hroutes : ∀ e ∈ e₁, e.2.routes.Nodup) :
    (∀ route, GetStationsByRoute (UpdateStations s₁ e₁ n₁) route =
        GetStationsByRoute (UpdateStations s₂ e₂ n₂) route) ∧
      GetRoutes (UpdateStations s₁ e₁ n₁) = GetRoutes (UpdateStations s₂ e₂ n₂) ∧
      ∀ ids, GetStationsByIDs (UpdateStations s₁ e₁ n₁) ids =
        GetStationsByIDs (UpdateStations s₂ e₂ n₂) ids := by
  have hroutes₂ : ∀ e ∈ e₂, e.2.routes.Nodup := fun e he => hroutes e (hp.mem_iff.mpr he)
  refine ⟨?_, ?_, ?_⟩
  · intro route
    simp only [GetStationsByRoute]
    rw [lookupBucket_updateStations s₁ e₁ n₁ _ hroutes,
      lookupBucket_updateStations s₂ e₂ n₂ _ hroutes₂]
    have hLp : List.Perm
        ((e₁.filter (fun x => decide (strToUpper route ∈ x.2.routes))).map (fun x => x.2))
        ((e₂.filter (fun x => decide (strToUpper route ∈ x.2.routes))).map (fun x => x.2)) :=
      (hp.filter _).map _
    by_cases hb : (((e₁.filter (fun x => decide (strToUpper route ∈ x.2.routes))).map
        (fun x => x.2)).isEmpty) = true
    · have hb₂ : (((e₂.filter (fun x => decide (strToUpper route ∈ x.2.routes))).map
          (fun x => x.2)).isEmpty) = true := by
        rw [List.isEmpty_iff] at hb ⊢
        have hlen : ((e₂.filter (fun x => decide (strToUpper route ∈ x.2.routes))).map
            (fun x => x.2)).length = 0 := by
          rw [← hLp.length_eq, hb]
          rfl
        exact List.length_eq_zero.mp hlen
      rw [if_pos hb, if_pos hb₂]
    · have hb₂ : ¬ (((e₂.filter (fun x => decide (strToUpper route ∈ x.2.routes))).map
          (fun x => x.2)).isEmpty) = true := by
        intro hc
        apply hb
        rw [List.isEmpty_iff] at hc ⊢
        have hlen : ((e₁.filter (fun x => decide (strToUpper route ∈ x.2.routes))).map
            (fun x => x.2)).length = 0 := by
          rw [hLp.length_eq, hc]
          rfl
        exact List.length_eq_zero.mp hlen
      rw [if_neg hb, if_neg hb₂, sortedBucket_eq e₁ e₂ _ hp hnames]
  · have hcr : List.Perm (collectRoutes e₁) (collectRoutes e₂) := by
      refine (List.perm_ext_iff_of_nodup (nodup_collectRoutes e₁)
        (nodup_collectRoutes e₂)).mpr ?_
      intro a
      rw [mem_collectRoutes, mem_collectRoutes]
      constructor
      · rintro ⟨e, he, hr⟩
        exact ⟨e, hp.mem_iff.mp he, hr⟩
      · rintro ⟨e, he, hr⟩
        exact ⟨e, hp.mem_iff.mpr he, hr⟩
    haveI : IsTotal String routeLe := ⟨fun a b => charListLe_total a.data b.data⟩
    haveI : IsTrans String routeLe := ⟨fun _ _ _ h h' => charListLe_trans _ _ _ h h'⟩
    haveI : IsAntisymm String routeLe := ⟨fun a b h h' => strLe_antisymm a b h h'⟩
    show (collectRoutes e₁).insertionSort routeLe = (collectRoutes e₂).insertionSort routeLe
    have hperm : List.Perm ((collectRoutes e₁).insertionSort routeLe)
        ((collectRoutes e₂).insertionSort routeLe) :=
      (List.perm_insertionSort _ _).trans (hcr.trans (List.perm_insertionSort _ _).symm)
    exact List.eq_of_perm_of_sorted hperm
      (List.sorted_insertionSort _ _) (List.sorted_insertionSort _ _)
  · intro ids
    have hlk : ∀ k, lookupStation e₁ k = lookupStation e₂ k := by
      intro k
      simp only [lookupStation]
      rw [find?_key_perm e₁ e₂ hp k hkeys]
    have hfm : ids.filterMap (lookupStation e₁) = ids.filterMap (lookupStation e₂) :=
      List.filterMap_congr (fun a _ => hlk a)
    show (let result := ids.foldl (fun acc id =>
        match lookupStation e₁ id with
        | some st => acc ++ [st]
        | none => acc) [];
      if result.isEmpty then Except.error "no stations found for given IDs"
      else Except.ok result) =
      (let result := ids.foldl (fun acc id =>
        match lookupStation e₂ id with
        | some st => acc ++ [st]
        | none => acc) [];
      if result.isEmpty then Except.error "no stations found for given IDs"
      else Except.ok result)
    simp only [getStationsByIDs_foldl, List.nil_append, hfm]

/-- Concrete instantiation of the amended C5 theorem: two iteration orders of
a two-station map with distinct names give identical query results. -/
theorem claim_C5_witness :
    GetStationsByRoute (UpdateStations NewStore c5F1 0) "n" =
        GetStationsByRoute (UpdateStations NewStore c5F2 3) "n" ∧
      GetRoutes (UpdateStations NewStore c5F1 0) = GetRoutes (UpdateStations NewStore c5F2 3) ∧
      GetStationsByIDs (UpdateStations NewStore c5F1 0) ["1", "9"] =
        GetStationsByIDs (UpdateStations NewStore c5F2 3) ["1", "9"] :=
  have h := claim_C5_rebuild_deterministic NewStore NewStore 0 3 c5F1 c5F2
    (by decide) (by decide) (by decide) (by decide)
  ⟨h.1 "n", h.2.1, h.2.2 ["1", "9"]⟩
